import Mathlib

/-!
# Verification of the ACME image codec (`ACME_image_funcs.py`)

Shallow embedding of the three codec operations of the repository:

* `read_hobj`  — HOBJ decoder,
* `read_oma`   — OMA2 decoder (tagged and legacy variants),
* `write_oma`  — OMA2 encoder (new-tagged and legacy variants).

A file is a `List Nat` of byte values (each `< 256`).  32-bit floats are
modelled by their little-endian 32-bit bit patterns (a `Nat < 2^32` stored
in an `Int`): the codec never computes on sample values, it only moves
their four bytes, so `struct.pack('f', d)` / `struct.unpack('f', …)` are
exactly the little-endian serialisation of that word.  Python exceptions
(`struct.error`, `IndexError`, numpy's reshape `ValueError`, negative
seeks) are modelled by the explicit error results below.
-/

/-- Byte values of a numpy-style array, row-major, together with its shape.
`elems` holds signed 16-bit samples for HOBJ images and 32-bit float bit
patterns (in `[0, 2^32)`) for OMA2 images. -/
structure NpArray where
  shape : List Nat
  elems : List Int
deriving DecidableEq

/-- Errors of the decoders.  Each constructor names the Python exception it
models: `TruncatedHeader`/`TruncatedPayload` are `struct.error` on a short
read, `BadFieldCount` is `struct.error` on a negative repeat count in the
format string, `MissingSpecs` is the `IndexError` raised by `specs[0]`,
`specs[1]` or `specs[8]` when the specs tuple is too short, `ShapeMismatch`
is the `ValueError` raised by `np.reshape`, and `SeekOutOfRange` is the
`ValueError`/`OSError` raised by a negative `f.seek`. -/
inductive DecodeErr where
  | TruncatedHeader
  | TruncatedPayload
  | BadFieldCount
  | MissingSpecs
  | ShapeMismatch
  | SeekOutOfRange
deriving DecidableEq

/-- Errors of the encoder: `IndexErr` models the `IndexError` of
`data.shape[0]` on a 0-d array and of `data[:,:,2]` when the third axis is
shorter than 3; `PackOverflow` models `struct.error` when a spec value does
not fit a signed 32-bit `'i'`; `ShapeMismatch` models the `ValueError` of
`np.reshape(data, row*col)`. -/
inductive EncodeErr where
  | IndexErr
  | PackOverflow
  | ShapeMismatch
deriving DecidableEq

/-! ## Byte-level primitives -/

/-- Little-endian bytes of a 16-bit word (`struct.pack('H', n)`). -/
def le16 (n : Nat) : List Nat := [n % 256, n / 256 % 256]

/-- Little-endian bytes of a 32-bit word. -/
def le32 (n : Nat) : List Nat :=
  [n % 256, n / 256 % 256, n / 65536 % 256, n / 16777216 % 256]

/-- Reassemble an unsigned 32-bit little-endian word from the first four
bytes of a list (the value `struct.unpack` starts from). -/
def bytesToU32 : List Nat → Nat
  | b0 :: b1 :: b2 :: b3 :: _ => b0 + 256 * b1 + 65536 * b2 + 16777216 * b3
  | _ => 0

/-- Two's-complement reading of an unsigned 32-bit word (`struct` format
`'i'`). -/
def toI32 (v : Nat) : Int :=
  if v < 2147483648 then (v : Int) else (v : Int) - 4294967296

/-- Two's-complement reading of an unsigned 16-bit word (`struct` format
`'h'`). -/
def toI16 (v : Nat) : Int :=
  if v < 32768 then (v : Int) else (v : Int) - 65536

/-- `struct.unpack('i', l)` on four little-endian bytes. -/
def readI32 (l : List Nat) : Int := toI32 (bytesToU32 l)

/-- `struct.unpack('h', l)` on two little-endian bytes. -/
def readI16 : List Nat → Int
  | b0 :: b1 :: _ => toI16 (b0 + 256 * b1)
  | _ => 0

/-- `struct.unpack('Ni', bytes)`: successive signed little-endian 32-bit
integers. -/
def parseI32s : List Nat → List Int
  | b0 :: b1 :: b2 :: b3 :: rest =>
      toI32 (b0 + 256 * b1 + 65536 * b2 + 16777216 * b3) :: parseI32s rest
  | _ => []

/-- `struct.unpack('Nf', bytes)`: successive little-endian 32-bit float
words, kept as their unsigned bit patterns. -/
def parseU32s : List Nat → List Int
  | b0 :: b1 :: b2 :: b3 :: rest =>
      ((b0 + 256 * b1 + 65536 * b2 + 16777216 * b3 : Nat) : Int) :: parseU32s rest
  | _ => []

/-- `struct.unpack('Nh', bytes)`: successive signed little-endian 16-bit
integers. -/
def parseI16s : List Nat → List Int
  | b0 :: b1 :: rest => toI16 (b0 + 256 * b1) :: parseI16s rest
  | _ => []

/-- `struct.pack('i', v)`: four little-endian bytes of the two's-complement
representation. -/
def packI32 (v : Int) : List Nat := le32 ((v % 4294967296).toNat)

/-- `struct.pack('f', d)` for a sample modelled by its 32-bit float bit
pattern: the four little-endian bytes of that word. -/
def packF (v : Int) : List Nat := le32 ((v % 4294967296).toNat)

/-- Serialise a list of values, concatenating the bytes of each
(the per-element `oma_file.write(struct.pack(…))` loops of the source). -/
def packSeq {α : Type} (f : α → List Nat) : List α → List Nat
  | [] => []
  | v :: rest => f v ++ packSeq f rest

/-! ## Substring test (`b'OMA2 Binary Data' in image_header`) -/

/-- Does `pat` occur at the head of `l`? -/
def seqStarts : List Nat → List Nat → Bool
  | [], _ => true
  | _ :: _, [] => false
  | a :: as, b :: bs => a == b && seqStarts as bs

/-- Does `pat` occur as a contiguous subsequence of `l`?  Models the Python
`in` test on byte strings. -/
def containsSeq (pat : List Nat) : List Nat → Bool
  | [] => pat.isEmpty
  | b :: rest => seqStarts pat (b :: rest) || containsSeq pat rest

/-- The 16 ASCII bytes of the tag literal `OMA2 Binary Data`. -/
def omaTag : List Nat :=
  [79, 77, 65, 50, 32, 66, 105, 110, 97, 114, 121, 32, 68, 97, 116, 97]

/-! ## numpy reshape and the colour split -/

/-- `np.reshape` of a `len`-element array to two dimensions `(row, col)`,
including numpy's `-1` dimension inference.  `none` models the `ValueError`
on a size mismatch or an invalid negative dimension. -/
def reshape2 (row col : Int) (len : Nat) : Option (Nat × Nat) :=
  if 0 ≤ row ∧ 0 ≤ col then
    if row * col = (len : Int) then some (row.toNat, col.toNat) else none
  else if row = -1 ∧ 0 < col then
    if (len : Int) % col = 0 then some (len / col.toNat, col.toNat) else none
  else if col = -1 ∧ 0 < row then
    if (len : Int) % row = 0 then some (row.toNat, len / row.toNat) else none
  else none

/-- Interleave three equal-length planes into a rows × cols × 3 array
(row-major bytes of `color_image[:,:,0]=red; …[:,:,1]=green; …[:,:,2]=blue`;
the three planes always have equal length where this is used). -/
def interleave3 : List Int → List Int → List Int → List Int
  | a :: as, b :: bs, c :: cs => a :: b :: c :: interleave3 as bs cs
  | _, _, _ => []

/-- The colour branch at the end of `read_oma`: `row_size = int(row/3)`,
the three horizontal bands `image[0:row_size]`, `image[row_size:2*row_size]`,
`image[2*row_size:3*row_size]` of the row-major `r × c` plane, interleaved
into an `r/3 × c × 3` image.  (`r` is the nonnegative reshaped row count,
so `int(row/3)` is Nat division.) -/
def colorSplit (r c : Nat) (samples : List Int) : NpArray :=
  { shape := [r / 3, c, 3]
    elems := interleave3
      (samples.take (r / 3 * c))
      ((samples.drop (r / 3 * c)).take (r / 3 * c))
      ((samples.drop (2 * (r / 3 * c))).take (r / 3 * c)) }

/-- Shared tail of `read_oma`: `np.array(image).reshape(row, col)` followed
by the `is_color == 1` colour split. -/
def finishImage (row col is_color : Int) (samples : List Int) :
    Except DecodeErr NpArray :=
  match reshape2 row col samples.length with
  | none => .error .ShapeMismatch
  | some (r, c) =>
      if is_color = 1 then .ok (colorSplit r c samples) else .ok ⟨[r, c], samples⟩

/-- Shared payload phase of `read_oma`: `npixels = row*col`, read
`npixels*4` bytes at `pos`, unpack as little-endian floats, reshape, split
colour planes. -/
def readPayload (file : List Nat) (pos : Nat) (row col is_color : Int) :
    Except DecodeErr NpArray :=
  let npixels := row * col
  if npixels < 0 then .error .BadFieldCount
  else if file.length < pos + 4 * npixels.toNat then .error .TruncatedPayload
  else finishImage row col is_color (parseU32s ((file.drop pos).take (4 * npixels.toNat)))

/-! ## The OMA2 decoder -/

/-- `read_oma` from `ACME_image_funcs.py`, as a function of the file's
bytes.  The tagged branch reads `(nspecs, nvalues, nrulerchar)` at offset
30, then the specs/values/ruler arrays, the fixed
`(error, is_big_endian, commentSize, extraSize)` block and the optional
comment/extra blocks; the legacy branch reads `(col, row)` at offset 14 and
repositions to `256*2 + 80*4 = 832`. -/
def read_oma (file : List Nat) : Except DecodeErr NpArray :=
  if containsSeq omaTag (file.take 30) then
    if file.length < 42 then .error .TruncatedHeader
    else
      let nspecs := readI32 ((file.drop 30).take 4)
      let nvalues := readI32 ((file.drop 34).take 4)
      let nrulerchar := readI32 ((file.drop 38).take 4)
      if nspecs < 0 then .error .BadFieldCount
      else if file.length < 42 + 4 * nspecs.toNat then .error .TruncatedHeader
      else
        let specs := parseI32s ((file.drop 42).take (4 * nspecs.toNat))
        if nvalues < 0 then .error .BadFieldCount
        else if file.length < 42 + 4 * nspecs.toNat + 4 * nvalues.toNat then
          .error .TruncatedHeader
        else if nrulerchar < 0 then .error .BadFieldCount
        else if file.length < 42 + 4 * nspecs.toNat + 4 * nvalues.toNat + nrulerchar.toNat then
          .error .TruncatedHeader
        else
          let p3 := 42 + 4 * nspecs.toNat + 4 * nvalues.toNat + nrulerchar.toNat
          if file.length < p3 + 16 then .error .TruncatedHeader
          else
            let commentSize := readI32 ((file.drop (p3 + 8)).take 4)
            let extraSize := readI32 ((file.drop (p3 + 12)).take 4)
            if 0 < commentSize ∧ file.length < p3 + 16 + commentSize.toNat then
              .error .TruncatedHeader
            else
              let p5 := p3 + 16 + (if 0 < commentSize then commentSize.toNat else 0)
              if 0 < extraSize ∧ file.length < p5 + extraSize.toNat then
                .error .TruncatedHeader
              else
                let p6 := p5 + (if 0 < extraSize then extraSize.toNat else 0)
                match specs.get? 0, specs.get? 1, specs.get? 8 with
                | some row, some col, some is_color => readPayload file p6 row col is_color
                | _, _, _ => .error .MissingSpecs
  else
    if file.length < 18 then .error .TruncatedHeader
    else
      let col := readI16 ((file.drop 14).take 2)
      let row := readI16 ((file.drop 16).take 2)
      readPayload file 832 row col 0

/-! ## The HOBJ decoder -/

/-- `read_hobj` from `ACME_image_funcs.py`.  `npixels` is the byte-reversed
(big-endian) 32-bit integer at offset 72, `rows`/`cols` are the
byte-reversed 16-bit integers at offsets 80/82 plus one; the payload of
`npixels` little-endian 16-bit samples starts at `84 + rows*6 + 17`. -/
def read_hobj (file : List Nat) : Except DecodeErr NpArray :=
  if file.length < 84 then .error .TruncatedHeader
  else
    let npixels := readI32 (((file.drop 72).take 4).reverse)
    let rows := readI16 (((file.drop 80).take 2).reverse) + 1
    let cols := readI16 (((file.drop 82).take 2).reverse) + 1
    let pos : Int := 84 + rows * 6 + 17
    if pos < 0 then .error .SeekOutOfRange
    else if npixels < 0 then .error .BadFieldCount
    else if file.length < pos.toNat + 2 * npixels.toNat then .error .TruncatedPayload
    else
      let samples := parseI16s ((file.drop pos.toNat).take (2 * npixels.toNat))
      match reshape2 rows cols samples.length with
      | none => .error .ShapeMismatch
      | some (r, c) => .ok ⟨[r, c], samples⟩

/-! ## The OMA2 encoder -/

/-- `data[:,:,k]` on a row-major array whose last axis has length `ch`:
every `ch`-th element starting at index `k`, one per cell of the first two
axes. -/
def sliceCh (ch k : Nat) (e : List Int) : List Int :=
  (List.range (e.length / ch)).map (fun i => e.getD (i * ch + k) 0)

/-- `np.vstack([data[:,:,0], data[:,:,1], data[:,:,2]])` on a row-major
array whose last axis has length `ch`: the three channel planes stacked
vertically. -/
def vstack3 (ch : Nat) (e : List Int) : List Int :=
  sliceCh ch 0 e ++ sliceCh ch 1 e ++ sliceCh ch 2 e

/-- The header bytes `b'OMA2 Binary Data 1.0'` padded with null bytes to 30
bytes. -/
def newHeader : List Nat := omaTag ++ [32, 49, 46, 48] ++ List.replicate 10 0

/-- The 32-entry specs array of the new-tagged writer:
`[row, col, 0, 0, 1, 1, 117315, 600, 1, …]` with `specs[8]` overwritten by
the colour flag. -/
def newSpecs (row col : Nat) (is_color : Int) : List Int :=
  [(row : Int), (col : Int), 0, 0, 1, 1, 117315, 600, is_color,
   1, 0, 117315, 600, 117314, 26, 121200, 33, 0, 2, 0, 1, 0, 2, 0, 16,
   0, 0, 0, 0, 0, 2791529, 0]

/-- The 16 ruler filler bytes; `rand i` models the `i`-th `os.urandom(1)`
draw (reduced to a byte value). -/
def packRand (rand : Nat → Nat) : List Nat :=
  (List.range 16).map (fun i => rand i % 256)

/-- Shared tail of the new-tagged writer once `row`, `col`, the colour flag
and the (possibly plane-stacked) data are fixed: check that every spec
packs as a signed 32-bit `'i'` (only `row` and `col` are not small
constants), reshape the data to a single row, and emit
header ++ counts ++ specs ++ 16 zero floats ++ ruler ++ 4 zero ints ++
payload.  The Python code writes incrementally and raises midway; the model
returns the error without the partial bytes. -/
def omaNewBytes (row col : Nat) (is_color : Int) (stacked : List Int)
    (rand : Nat → Nat) : Except EncodeErr (List Nat) :=
  if 2147483648 ≤ row ∨ 2147483648 ≤ col then .error .PackOverflow
  else if stacked.length ≠ row * col then .error .ShapeMismatch
  else .ok (newHeader ++ (le32 32 ++ (le32 16 ++ (le32 16
      ++ (packSeq packI32 (newSpecs row col is_color)
      ++ (List.replicate 64 0
      ++ (packRand rand
      ++ (List.replicate 16 0
      ++ packSeq packF stacked))))))))

/-- The 256-entry legacy header: little-endian 16-bit words, all zero
except index 226 = 32639, index 7 = `col` and index 8 = `row` (assignments
into a `uint16` numpy array, hence reduced mod 2^16). -/
def legacyHeader (row col : Nat) : List Nat :=
  packSeq le16 ((List.range 256).map (fun i =>
    if i = 226 then 32639
    else if i = 7 then col % 65536
    else if i = 8 then row % 65536
    else 0))

/-- `write_oma(data, …, use_new=True)`: the new-tagged branch. -/
def write_oma_new (data : NpArray) (rand : Nat → Nat) : Except EncodeErr (List Nat) :=
  match data.shape.get? 0 with
  | none => .error .IndexErr
  | some r0 =>
    let col := data.shape.getD 1 1
    if 2 < data.shape.length ∧ data.shape.getD 2 0 = 3 then
      omaNewBytes (3 * r0) col 1 (vstack3 3 data.elems) rand
    else
      omaNewBytes r0 col 0 data.elems rand

/-- `write_oma(data, …, use_new=False)`: the legacy branch.  The header and
the 80-float offset table are written before the colour planes are stacked,
so `header[8]` records the pre-stacking row count. -/
def write_oma_legacy (data : NpArray) : Except EncodeErr (List Nat) :=
  match data.shape.get? 0 with
  | none => .error .IndexErr
  | some r0 =>
    let col := data.shape.getD 1 1
    if data.shape.length = 3 then
      let ch := data.shape.getD 2 0
      if ch < 3 then .error .IndexErr
      else
        let stacked := vstack3 ch data.elems
        if stacked.length ≠ 3 * r0 * col then .error .ShapeMismatch
        else .ok (legacyHeader r0 col ++ (List.replicate 320 0 ++ packSeq packF stacked))
    else
      if data.elems.length ≠ r0 * col then .error .ShapeMismatch
      else .ok (legacyHeader r0 col ++ (List.replicate 320 0 ++ packSeq packF data.elems))

/-- `write_oma` from `ACME_image_funcs.py`, as a function of the image, the
random-byte source feeding the ruler block, and the `use_new` flag.  The
filename handling of the source is output routing and not modelled. -/
def write_oma (data : NpArray) (rand : Nat → Nat) (use_new : Bool) :
    Except EncodeErr (List Nat) :=
  if use_new then write_oma_new data rand else write_oma_legacy data

/-! ## Views and well-formedness predicates used by the claims -/

/-- The byte position of the pixel payload of a tagged OMA2 file whose
header declares counts `ns`, `nv`, `nr` and comment/extra sizes `cs`,
`es`. -/
def taggedPayloadPos (ns nv nr cs es : Int) : Nat :=
  42 + 4 * ns.toNat + 4 * nv.toNat + nr.toNat + 16
    + (if 0 < cs then cs.toNat else 0) + (if 0 < es then es.toNat else 0)

/-- A view of a byte stream as a well-formed tagged OMA2 header: the tag is
present, the declared counts are the given values and are nonnegative, the
specs array parses to `specs`, and the stream is long enough for every
header field the decoder reads before reaching the pixel payload. -/
structure TaggedHdr (file : List Nat) (ns nv nr cs es : Int) (specs : List Int) : Prop where
  tag : containsSeq omaTag (file.take 30) = true
  hns : readI32 ((file.drop 30).take 4) = ns
  hnv : readI32 ((file.drop 34).take 4) = nv
  hnr : readI32 ((file.drop 38).take 4) = nr
  ns0 : 0 ≤ ns
  nv0 : 0 ≤ nv
  nr0 : 0 ≤ nr
  hspecs : parseI32s ((file.drop 42).take (4 * ns.toNat)) = specs
  hcs : readI32 ((file.drop (42 + 4 * ns.toNat + 4 * nv.toNat + nr.toNat + 8)).take 4) = cs
  hes : readI32 ((file.drop (42 + 4 * ns.toNat + 4 * nv.toNat + nr.toNat + 12)).take 4) = es
  hlen : 42 + 4 * ns.toNat + 4 * nv.toNat + nr.toNat + 16 ≤ file.length
  hcslen : 0 < cs → 42 + 4 * ns.toNat + 4 * nv.toNat + nr.toNat + 16 + cs.toNat ≤ file.length
  heslen : 0 < es → 42 + 4 * ns.toNat + 4 * nv.toNat + nr.toNat + 16
      + (if 0 < cs then cs.toNat else 0) + es.toNat ≤ file.length

/-- A mono image of §3 of the spec: a 2-d shape with positive extents whose
sample count matches, with extents small enough to pack as signed 32-bit
specs. -/
def WFMono (a : NpArray) : Prop :=
  ∃ r c, a.shape = [r, c] ∧ 0 < r ∧ 0 < c ∧ r < 2147483648 ∧ c < 2147483648 ∧
    a.elems.length = r * c

/-- A 3-channel colour image of §3 of the spec, with extents small enough
that the stacked row count `3*r` still packs as a signed 32-bit spec. -/
def WFColor (a : NpArray) : Prop :=
  ∃ r c, a.shape = [r, c, 3] ∧ 0 < r ∧ 0 < c ∧ 3 * r < 2147483648 ∧ c < 2147483648 ∧
    a.elems.length = r * c * 3

/-- Every sample is a 32-bit float bit pattern. -/
def WFSamples (a : NpArray) : Prop :=
  ∀ s ∈ a.elems, 0 ≤ s ∧ s < 4294967296

/-- The Image invariant of §3 of the spec: a mono or 3-channel colour image
whose sample buffer matches its geometry. -/
def WFImage (a : NpArray) : Prop :=
  (WFMono a ∨ WFColor a) ∧ WFSamples a

/-! ## Concrete byte streams used as test inputs by individual claims -/

/-- A tagged OMA2 stream declaring `nspecs = 9`, `rows = 7`, `cols = 1`,
colour flag `specs[8] = 1`, with a 7-float payload: `rows` is not divisible
by 3. -/
def colorRows7File : List Nat :=
  newHeader ++ le32 9 ++ le32 0 ++ le32 0
    ++ packSeq packI32 [7, 1, 0, 0, 0, 0, 0, 0, 1]
    ++ List.replicate 16 0 ++ packSeq packF [10, 20, 30, 40, 50, 60, 70]

/-- A tagged OMA2 stream declaring `nspecs = 5` (below the required 9). -/
def nspecs5File : List Nat :=
  newHeader ++ le32 5 ++ le32 0 ++ le32 0 ++ packSeq packI32 [7, 1, 0, 0, 0]
    ++ List.replicate 16 0

/-- A tagged OMA2 stream with `rows = 6`, `cols = 4`, colour flag 1 and a
24-float payload `0, 1, …, 23`. -/
def colorRows6File : List Nat :=
  newHeader ++ le32 9 ++ le32 0 ++ le32 0
    ++ packSeq packI32 [6, 4, 0, 0, 0, 0, 0, 0, 1]
    ++ List.replicate 16 0
    ++ packSeq packF ((List.range 24).map (fun i => (i : Int)))

/-- A tagged OMA2 stream with `rows = 6`, `cols = 1` and the colour spec
`specs[8] = 2` — nonzero but different from 1. -/
def colorFlag2File : List Nat :=
  newHeader ++ le32 9 ++ le32 0 ++ le32 0
    ++ packSeq packI32 [6, 1, 0, 0, 0, 0, 0, 0, 2]
    ++ List.replicate 16 0 ++ packSeq packF [10, 20, 30, 40, 50, 60]

/-- An untagged (legacy) OMA2 stream encoding `cols = 4, rows = 2` at byte
offset 14, with an 8-float payload at offset 832. -/
def legacy2x4File : List Nat :=
  List.replicate 14 0 ++ le16 4 ++ le16 2 ++ List.replicate 814 0
    ++ packSeq packF [1, 2, 3, 4, 5, 6, 7, 8]

/-- A HOBJ stream whose header decodes to `npixels = 1`, `rows = -1`
(stored big-endian `0xFFFE` at offset 80), `cols = 1`, with the 2-byte
payload (sample 42) at offset `84 + (-1)*6 + 17 = 95`. -/
def hobjRowsNeg1File : List Nat :=
  List.replicate 72 0 ++ [0, 0, 0, 1] ++ List.replicate 4 0 ++ [255, 254]
    ++ [0, 0] ++ List.replicate 11 0 ++ [42, 0]

/-- A HOBJ stream whose header decodes to `npixels = 2`, `rows = 1`,
`cols = 1` (a shape mismatch), with a full 4-byte payload at offset 107. -/
def hobjMismatchFile : List Nat :=
  List.replicate 72 0 ++ [0, 0, 0, 2] ++ List.replicate 4 0 ++ [0, 0] ++ [0, 0]
    ++ List.replicate 23 0 ++ [1, 0, 2, 0]

/-- A 1×1 colour image with samples 10, 20, 30. -/
def color1x1Img : NpArray := ⟨[1, 1, 3], [10, 20, 30]⟩

/-- The byte stream the legacy writer emits for `color1x1Img`. -/
def color1x1LegacyOut : List Nat :=
  (write_oma color1x1Img (fun _ => 0) false).toOption.getD []

/-! ## Basic length and extraction lemmas -/

theorem takeAppendLen {α : Type} (l m : List α) : (l ++ m).take l.length = l := by
  induction l with
  | nil => rfl
  | cons a t ih => simp [ih]

theorem dropAppendLen {α : Type} (l m : List α) : (l ++ m).drop l.length = m := by
  induction l with
  | nil => rfl
  | cons a t ih => simp [ih]

theorem takeApp {α : Type} {l : List α} (m : List α) {n : Nat} (h : l.length = n) :
    (l ++ m).take n = l := by subst h; exact takeAppendLen l m

theorem dropApp {α : Type} {l : List α} (m : List α) {n : Nat} (h : l.length = n) :
    (l ++ m).drop n = m := by subst h; exact dropAppendLen l m

theorem dropAppAdd {α : Type} {l : List α} (m : List α) {n : Nat} (h : l.length = n) (k : Nat) :
    (l ++ m).drop (n + k) = m.drop k := by
  subst h
  induction l with
  | nil => simp
  | cons a t ih =>
    have h1 : t.length + 1 + k = (t.length + k) + 1 := by omega
    rw [List.length_cons, h1, List.cons_append, List.drop_succ_cons, ih]

theorem length_packSeq {α : Type} (f : α → List Nat) (k : Nat) (hf : ∀ a, (f a).length = k)
    (l : List α) : (packSeq f l).length = k * l.length := by
  induction l with
  | nil => simp [packSeq]
  | cons a t ih => simp [packSeq, hf, ih]; ring

theorem length_packI32 (v : Int) : (packI32 v).length = 4 := rfl

theorem length_packF (v : Int) : (packF v).length = 4 := rfl

theorem length_newHeader : newHeader.length = 30 := rfl

theorem length_packRand (rand : Nat → Nat) : (packRand rand).length = 16 := by
  simp [packRand]

theorem length_newSpecs (row col : Nat) (isc : Int) : (newSpecs row col isc).length = 32 := rfl

theorem length_legacyHeader (row col : Nat) : (legacyHeader row col).length = 512 := by
  rw [legacyHeader, length_packSeq le16 2 (fun a => rfl)]
  simp

/-! ## Parse/pack round trips -/

theorem le32_decomp (m : Nat) :
    m % 256 + 256 * (m / 256 % 256) + 65536 * (m / 65536 % 256)
      + 16777216 * (m / 16777216 % 256) = m % 4294967296 := by omega

theorem parseI32s_cons (v : Int) (rest : List Nat)
    (h1 : -2147483648 ≤ v) (h2 : v < 2147483648) :
    parseI32s (packI32 v ++ rest) = v :: parseI32s rest := by
  simp only [packI32, le32, List.cons_append, List.nil_append, parseI32s]
  congr 1
  rw [le32_decomp]
  simp only [toI32]
  split <;> omega

theorem parseU32s_cons (v : Int) (rest : List Nat)
    (h1 : 0 ≤ v) (h2 : v < 4294967296) :
    parseU32s (packF v ++ rest) = v :: parseU32s rest := by
  simp only [packF, le32, List.cons_append, List.nil_append, parseU32s]
  congr 1
  rw [le32_decomp]
  omega

theorem parseI32s_packSeq (l : List Int)
    (h : ∀ v ∈ l, -2147483648 ≤ v ∧ v < 2147483648) :
    parseI32s (packSeq packI32 l) = l := by
  induction l with
  | nil => rfl
  | cons v t ih =>
    have hv := h v (by simp)
    rw [packSeq, parseI32s_cons v _ hv.1 hv.2, ih (fun x hx => h x (by simp [hx]))]

theorem parseU32s_packSeq (l : List Int)
    (h : ∀ v ∈ l, 0 ≤ v ∧ v < 4294967296) :
    parseU32s (packSeq packF l) = l := by
  induction l with
  | nil => rfl
  | cons v t ih =>
    have hv := h v (by simp)
    rw [packSeq, parseU32s_cons v _ hv.1 hv.2, ih (fun x hx => h x (by simp [hx]))]

theorem parseI32s_length : ∀ l : List Nat, (parseI32s l).length = l.length / 4
  | [] => rfl
  | [_] => by simp [parseI32s]
  | [_, _] => by simp [parseI32s]
  | [_, _, _] => by simp [parseI32s]
  | b0 :: b1 :: b2 :: b3 :: rest => by
      simp only [parseI32s, List.length_cons, parseI32s_length rest]
      omega

theorem parseU32s_length : ∀ l : List Nat, (parseU32s l).length = l.length / 4
  | [] => rfl
  | [_] => by simp [parseU32s]
  | [_, _] => by simp [parseU32s]
  | [_, _, _] => by simp [parseU32s]
  | b0 :: b1 :: b2 :: b3 :: rest => by
      simp only [parseU32s, List.length_cons, parseU32s_length rest]
      omega

theorem parseI16s_length : ∀ l : List Nat, (parseI16s l).length = l.length / 2
  | [] => rfl
  | [_] => by simp [parseI16s]
  | b0 :: b1 :: rest => by
      simp only [parseI16s, List.length_cons, parseI16s_length rest]
      omega

/-! ## Plane slicing lemmas -/

theorem length_sliceCh (ch k : Nat) (e : List Int) :
    (sliceCh ch k e).length = e.length / ch := by simp [sliceCh]

theorem sliceCh3_cons (k : Nat) (hk : k < 3) (x y z : Int) (e : List Int) :
    sliceCh 3 k (x :: y :: z :: e) = [x, y, z].getD k 0 :: sliceCh 3 k e := by
  simp only [sliceCh, List.length_cons]
  have h3 : (e.length + 1 + 1 + 1) / 3 = e.length / 3 + 1 := by omega
  rw [h3, List.range_succ_eq_map, List.map_cons, List.map_map]
  congr 1
  · interval_cases k <;> rfl
  · apply List.map_congr_left
    intro i _
    have hidx : (Nat.succ i) * 3 + k = (i * 3 + k) + 1 + 1 + 1 := by omega
    simp only [Function.comp_apply, hidx, List.getD_cons_succ]

theorem interleave3_sliceCh : ∀ (n : Nat) (e : List Int), e.length = 3 * n →
    interleave3 (sliceCh 3 0 e) (sliceCh 3 1 e) (sliceCh 3 2 e) = e := by
  intro n
  induction n with
  | zero =>
    intro e he
    have : e = [] := List.eq_nil_of_length_eq_zero (by omega)
    subst this; rfl
  | succ m ih =>
    intro e he
    rcases e with _ | ⟨x, e⟩
    · simp at he
    rcases e with _ | ⟨y, e⟩
    · simp at he; omega
    rcases e with _ | ⟨z, e⟩
    · simp at he; omega
    have he' : e.length = 3 * m := by simp at he; omega
    rw [sliceCh3_cons 0 (by omega), sliceCh3_cons 1 (by omega), sliceCh3_cons 2 (by omega)]
    simp only [List.getD_cons_zero, List.getD_cons_succ]
    rw [interleave3, ih e he']

theorem sliceCh_interleave3 : ∀ (a b c : List Int), a.length = b.length → b.length = c.length →
    sliceCh 3 0 (interleave3 a b c) = a ∧ sliceCh 3 1 (interleave3 a b c) = b ∧
      sliceCh 3 2 (interleave3 a b c) = c := by
  intro a
  induction a with
  | nil =>
    intro b c h1 h2
    simp only [List.length_nil] at h1
    have hb : b = [] := List.eq_nil_of_length_eq_zero h1.symm
    subst hb
    simp only [List.length_nil] at h2
    have hc : c = [] := List.eq_nil_of_length_eq_zero h2.symm
    subst hc
    exact ⟨rfl, rfl, rfl⟩
  | cons x a ih =>
    intro b c h1 h2
    rcases b with _ | ⟨y, b⟩
    · simp at h1
    rcases c with _ | ⟨z, c⟩
    · simp at h2
    have h1' : a.length = b.length := by simpa using h1
    have h2' : b.length = c.length := by simpa using h2
    obtain ⟨e0, e1, e2⟩ := ih b c h1' h2'
    rw [interleave3]
    refine ⟨?_, ?_, ?_⟩
    · rw [sliceCh3_cons 0 (by omega), e0]; rfl
    · rw [sliceCh3_cons 1 (by omega), e1]; rfl
    · rw [sliceCh3_cons 2 (by omega), e2]; rfl

/-! ## Characterisation of the tagged decode path -/

theorem readPayload_ok {file : List Nat} {pos : Nat} {row col isc : Int}
    (hr : 0 ≤ row) (hc : 0 ≤ col)
    (hlen : pos + 4 * (row * col).toNat ≤ file.length) :
    readPayload file pos row col isc =
      finishImage row col isc (parseU32s ((file.drop pos).take (4 * (row * col).toNat))) := by
  have hnn : 0 ≤ row * col := mul_nonneg hr hc
  simp only [readPayload]
  rw [if_neg (show ¬row * col < 0 by omega),
    if_neg (show ¬file.length < pos + 4 * (row * col).toNat by omega)]

theorem finishImage_mono {row col isc : Int} {samples : List Int}
    (hr : 0 ≤ row) (hc : 0 ≤ col) (hlen : (samples.length : Int) = row * col)
    (hisc : isc ≠ 1) :
    finishImage row col isc samples = .ok ⟨[row.toNat, col.toNat], samples⟩ := by
  simp only [finishImage, reshape2]
  rw [if_pos ⟨hr, hc⟩, if_pos hlen.symm]
  simp [hisc]

theorem finishImage_color {row col : Int} {samples : List Int}
    (hr : 0 ≤ row) (hc : 0 ≤ col) (hlen : (samples.length : Int) = row * col) :
    finishImage row col 1 samples = .ok (colorSplit row.toNat col.toNat samples) := by
  simp only [finishImage, reshape2]
  rw [if_pos ⟨hr, hc⟩, if_pos hlen.symm]
  simp

/-- Master characterisation of the tagged decode path: on a well-formed
tagged header the decoder reaches the specs lookup, and then either decodes
the payload at `taggedPayloadPos` or fails with `MissingSpecs`. -/
theorem read_oma_tagged {file : List Nat} {ns nv nr cs es : Int} {specs : List Int}
    (h : TaggedHdr file ns nv nr cs es specs) :
    read_oma file =
      match specs.get? 0, specs.get? 1, specs.get? 8 with
      | some row, some col, some isc =>
          readPayload file (taggedPayloadPos ns nv nr cs es) row col isc
      | _, _, _ => .error .MissingSpecs := by
  have hlen := h.hlen
  have hcslen := h.hcslen
  have heslen := h.heslen
  have ns0 := h.ns0
  have nv0 := h.nv0
  have nr0 := h.nr0
  simp only [read_oma, h.tag, h.hns, h.hnv, h.hnr, h.hspecs, h.hcs, h.hes]
  rw [if_pos trivial]
  rw [if_neg (show ¬file.length < 42 by omega)]
  rw [if_neg (show ¬ns < 0 by omega)]
  rw [if_neg (show ¬file.length < 42 + 4 * ns.toNat by omega)]
  rw [if_neg (show ¬nv < 0 by omega)]
  rw [if_neg (show ¬file.length < 42 + 4 * ns.toNat + 4 * nv.toNat by omega)]
  rw [if_neg (show ¬nr < 0 by omega)]
  rw [if_neg (show ¬file.length < 42 + 4 * ns.toNat + 4 * nv.toNat + nr.toNat by omega)]
  rw [if_neg (show ¬file.length < 42 + 4 * ns.toNat + 4 * nv.toNat + nr.toNat + 16 by omega)]
  rw [if_neg (show ¬(0 < cs ∧
      file.length < 42 + 4 * ns.toNat + 4 * nv.toNat + nr.toNat + 16 + cs.toNat) by
    rintro ⟨h1, h2⟩; have := hcslen h1; omega)]
  rw [if_neg (show ¬(0 < es ∧
      file.length < 42 + 4 * ns.toNat + 4 * nv.toNat + nr.toNat + 16
        + (if 0 < cs then cs.toNat else 0) + es.toNat) by
    rintro ⟨h1, h2⟩; have := heslen h1; omega)]
  rfl

theorem dropThen {α : Type} {l t : List α} {m : Nat} (h : l.drop m = t) (n : Nat) :
    l.drop (m + n) = t.drop n := by
  subst h
  exact (List.drop_drop n m l).symm

theorem length_le32 (n : Nat) : (le32 n).length = 4 := rfl

/-- The byte stream emitted by the new-tagged writer is a well-formed
tagged header with counts `(32, 16, 16)`, zero comment/extra sizes, and
whatever specs the 128 spec bytes parse to. -/
theorem taggedHdr_parts (S R P : List Nat) (specs : List Int)
    (hS : S.length = 128) (hparse : parseI32s S = specs) (hR : R.length = 16) :
    TaggedHdr (newHeader ++ (le32 32 ++ (le32 16 ++ (le32 16 ++ (S
      ++ (List.replicate 64 0 ++ (R ++ (List.replicate 16 0 ++ P))))))))
      32 16 16 0 0 specs
    ∧ (newHeader ++ (le32 32 ++ (le32 16 ++ (le32 16 ++ (S
      ++ (List.replicate 64 0 ++ (R ++ (List.replicate 16 0 ++ P)))))))).drop 266 = P
    ∧ (newHeader ++ (le32 32 ++ (le32 16 ++ (le32 16 ++ (S
      ++ (List.replicate 64 0 ++ (R ++ (List.replicate 16 0 ++ P)))))))).length
      = 266 + P.length := by
  set B : List Nat := newHeader ++ (le32 32 ++ (le32 16 ++ (le32 16 ++ (S
      ++ (List.replicate 64 0 ++ (R ++ (List.replicate 16 0 ++ P))))))) with hB
  have e30 : B.drop 30
      = le32 32 ++ (le32 16 ++ (le32 16 ++ (S
        ++ (List.replicate 64 0 ++ (R ++ (List.replicate 16 0 ++ P)))))) :=
    dropApp _ (show newHeader.length = 30 by rfl)
  have e34 : B.drop 34
      = le32 16 ++ (le32 16 ++ (S
        ++ (List.replicate 64 0 ++ (R ++ (List.replicate 16 0 ++ P))))) :=
    (dropThen e30 4).trans (dropApp _ (show (le32 32).length = 4 by rfl))
  have e38 : B.drop 38
      = le32 16 ++ (S ++ (List.replicate 64 0 ++ (R ++ (List.replicate 16 0 ++ P)))) :=
    (dropThen e34 4).trans (dropApp _ (show (le32 16).length = 4 by rfl))
  have e42 : B.drop 42
      = S ++ (List.replicate 64 0 ++ (R ++ (List.replicate 16 0 ++ P))) :=
    (dropThen e38 4).trans (dropApp _ (show (le32 16).length = 4 by rfl))
  have e170 : B.drop 170
      = List.replicate 64 0 ++ (R ++ (List.replicate 16 0 ++ P)) :=
    (dropThen e42 128).trans (dropApp _ hS)
  have e234 : B.drop 234 = R ++ (List.replicate 16 0 ++ P) :=
    (dropThen e170 64).trans
      (dropApp _ (show (List.replicate 64 (0 : Nat)).length = 64 by simp))
  have e250 : B.drop 250 = List.replicate 16 0 ++ P :=
    (dropThen e234 16).trans (dropApp _ hR)
  have esplit : (List.replicate 16 0 : List Nat) ++ P
      = List.replicate 8 0 ++ (List.replicate 4 0 ++ (List.replicate 4 0 ++ P)) := by
    simp [← List.append_assoc]
  have e258 : B.drop 258 = List.replicate 4 0 ++ (List.replicate 4 0 ++ P) :=
    (dropThen e250 8).trans (by
      rw [esplit]
      exact dropApp _ (show (List.replicate 8 (0 : Nat)).length = 8 by simp))
  have e262 : B.drop 262 = List.replicate 4 0 ++ P :=
    (dropThen e258 4).trans
      (dropApp _ (show (List.replicate 4 (0 : Nat)).length = 4 by simp))
  have hlenB : B.length = 266 + P.length := by
    rw [hB]
    simp only [List.length_append, length_newHeader, length_le32, hS, hR,
      List.length_replicate]
    omega
  have e266 : B.drop 266 = P :=
    (dropThen e262 4).trans
      (dropApp _ (show (List.replicate 4 (0 : Nat)).length = 4 by simp))
  refine ⟨⟨?_, ?_, ?_, ?_, ?_, ?_, ?_, ?_, ?_, ?_, ?_, ?_, ?_⟩, e266, hlenB⟩
  · rw [hB, takeApp _ (show newHeader.length = 30 by rfl)]
    decide
  · rw [e30, takeApp _ (show (le32 32).length = 4 by rfl)]
    decide
  · show readI32 ((B.drop 34).take 4) = 16
    rw [e34, takeApp _ (show (le32 16).length = 4 by rfl)]
    decide
  · show readI32 ((B.drop 38).take 4) = 16
    rw [e38, takeApp _ (show (le32 16).length = 4 by rfl)]
    decide
  · decide
  · decide
  · decide
  · show parseI32s ((B.drop 42).take 128) = specs
    rw [e42, takeApp _ hS, hparse]
  · show readI32 ((B.drop 258).take 4) = 0
    rw [e258, takeApp _ (show (List.replicate 4 (0 : Nat)).length = 4 by simp)]
    decide
  · show readI32 ((B.drop 262).take 4) = 0
    rw [e262, takeApp _ (show (List.replicate 4 (0 : Nat)).length = 4 by simp)]
    decide
  · show 266 ≤ B.length
    omega
  · intro hx
    exact absurd hx (by decide)
  · intro hx
    exact absurd hx (by decide)

theorem getD_mem_or (l : List Int) (n : Nat) (d : Int) :
    l.getD n d ∈ l ∨ l.getD n d = d := by
  by_cases h : n < l.length
  · left
    rw [List.getD_eq_getElem l d h]
    exact List.getElem_mem h
  · right
    exact List.getD_eq_default l d (by omega)

theorem sliceCh_samples {e : List Int} (hsamp : ∀ v ∈ e, 0 ≤ v ∧ v < 4294967296)
    (ch k : Nat) : ∀ v ∈ sliceCh ch k e, 0 ≤ v ∧ v < 4294967296 := by
  intro v hv
  simp only [sliceCh, List.mem_map] at hv
  obtain ⟨i, _, rfl⟩ := hv
  rcases getD_mem_or e (i * ch + k) 0 with h | h
  · exact hsamp _ h
  · rw [h]; omega

theorem newSpecs_bounds (row col : Nat) (isc : Int)
    (h1 : row < 2147483648) (h2 : col < 2147483648)
    (hi1 : -2147483648 ≤ isc) (hi2 : isc < 2147483648) :
    ∀ v ∈ newSpecs row col isc, -2147483648 ≤ v ∧ v < 2147483648 := by
  intro v hv
  simp only [newSpecs, List.mem_cons, List.not_mem_nil, or_false] at hv
  rcases hv with rfl | rfl | rfl | rfl | rfl | rfl | rfl | rfl | rfl | rfl | rfl | rfl |
    rfl | rfl | rfl | rfl | rfl | rfl | rfl | rfl | rfl | rfl | rfl | rfl | rfl | rfl |
    rfl | rfl | rfl | rfl | rfl | rfl <;> constructor <;> omega

/-- Decoding the byte stream produced by the shared new-tagged writer tail
recovers exactly `finishImage` applied to the written geometry and data. -/
theorem read_omaNew (row col : Nat) (isc : Int) (stacked : List Int) (rand : Nat → Nat)
    (h1 : row < 2147483648) (h2 : col < 2147483648)
    (hi1 : -2147483648 ≤ isc) (hi2 : isc < 2147483648)
    (hlen : stacked.length = row * col)
    (hsamp : ∀ v ∈ stacked, 0 ≤ v ∧ v < 4294967296) :
    ∃ b, omaNewBytes row col isc stacked rand = .ok b ∧
      read_oma b = finishImage (row : Int) (col : Int) isc stacked := by
  have hS : (packSeq packI32 (newSpecs row col isc)).length = 128 := by
    rw [length_packSeq packI32 4 (fun v => rfl), length_newSpecs]
  have hparse : parseI32s (packSeq packI32 (newSpecs row col isc)) = newSpecs row col isc :=
    parseI32s_packSeq _ (newSpecs_bounds row col isc h1 h2 hi1 hi2)
  have hP : (packSeq packF stacked).length = 4 * stacked.length :=
    length_packSeq packF 4 (fun v => rfl) stacked
  obtain ⟨hdr, e266, hBlen⟩ :=
    taggedHdr_parts (packSeq packI32 (newSpecs row col isc)) (packRand rand)
      (packSeq packF stacked) (newSpecs row col isc) hS hparse (length_packRand rand)
  refine ⟨newHeader ++ (le32 32 ++ (le32 16 ++ (le32 16
      ++ (packSeq packI32 (newSpecs row col isc)
      ++ (List.replicate 64 0 ++ (packRand rand
      ++ (List.replicate 16 0 ++ packSeq packF stacked))))))), ?_, ?_⟩
  · simp only [omaNewBytes]
    rw [if_neg (show ¬(2147483648 ≤ row ∨ 2147483648 ≤ col) by omega),
      if_neg (show ¬stacked.length ≠ row * col by omega)]
  · rw [read_oma_tagged hdr]
    show readPayload _ 266 (row : Int) (col : Int) isc = _
    have hcast : (((row : Int) * (col : Int)).toNat) = row * col := by
      rw [← Nat.cast_mul, Int.toNat_natCast]
    rw [readPayload_ok (by positivity) (by positivity)
      (by rw [hcast]; omega)]
    rw [hcast, e266, ← hlen]
    rw [show (4 : Nat) * stacked.length = (packSeq packF stacked).length from hP.symm,
      List.take_length, parseU32s_packSeq _ hsamp]

/-- C1: for every mono or 3-channel colour image satisfying the Image
invariant, encoding with the OMA2 new-tagged variant (`write_oma` with
`use_new = true`) and decoding the resulting byte stream with `read_oma`
yields an image with the same rows, cols and channel layout, and with every
sample value exactly equal to the original. -/
theorem C1_new_roundtrip (a : NpArray) (rand : Nat → Nat) (h : WFImage a) :
    ∃ b, write_oma a rand true = .ok b ∧ read_oma b = .ok a := by
  obtain ⟨hgeom, hsamp⟩ := h
  rcases hgeom with ⟨r, c, hsh, hr, hc, h1, h2, hlen⟩ | ⟨r, c, hsh, hr, hc, h1, h2, hlen⟩
  · -- mono image, shape [r, c]
    obtain ⟨sh, e⟩ := a
    replace hsh : sh = [r, c] := hsh
    subst hsh
    replace hsamp : ∀ s ∈ e, 0 ≤ s ∧ s < 4294967296 := hsamp
    replace hlen : e.length = r * c := hlen
    show ∃ b, omaNewBytes r c 0 e rand = Except.ok b ∧
      read_oma b = Except.ok (⟨[r, c], e⟩ : NpArray)
    obtain ⟨b, hw, hread⟩ :=
      read_omaNew r c 0 e rand h1 h2 (by omega) (by omega) hlen hsamp
    refine ⟨b, hw, ?_⟩
    rw [hread, finishImage_mono (by positivity) (by positivity)
      (by rw [hlen]; push_cast; ring) (by omega)]
    rw [Int.toNat_natCast, Int.toNat_natCast]
  · -- colour image, shape [r, c, 3]
    obtain ⟨sh, e⟩ := a
    replace hsh : sh = [r, c, 3] := hsh
    subst hsh
    replace hsamp : ∀ s ∈ e, 0 ≤ s ∧ s < 4294967296 := hsamp
    replace hlen : e.length = r * c * 3 := hlen
    show ∃ b, omaNewBytes (3 * r) c 1 (vstack3 3 e) rand = Except.ok b ∧
      read_oma b = Except.ok (⟨[r, c, 3], e⟩ : NpArray)
    have hq : r * c * 3 / 3 = r * c := Nat.mul_div_cancel _ (by norm_num)
    have hs0 : (sliceCh 3 0 e).length = r * c := by
      rw [length_sliceCh, hlen, hq]
    have hs1 : (sliceCh 3 1 e).length = r * c := by
      rw [length_sliceCh, hlen, hq]
    have hsl : (vstack3 3 e).length = 3 * r * c := by
      simp only [vstack3, List.length_append, length_sliceCh, hlen, hq]
      ring
    have hstacksamp : ∀ v ∈ vstack3 3 e, 0 ≤ v ∧ v < 4294967296 := by
      intro v hv
      simp only [vstack3, List.mem_append] at hv
      rcases hv with (hv | hv) | hv
      · exact sliceCh_samples hsamp 3 0 v hv
      · exact sliceCh_samples hsamp 3 1 v hv
      · exact sliceCh_samples hsamp 3 2 v hv
    obtain ⟨b, hw, hread⟩ :=
      read_omaNew (3 * r) c 1 (vstack3 3 e) rand h1 h2 (by omega) (by omega) hsl hstacksamp
    refine ⟨b, hw, ?_⟩
    rw [hread, finishImage_color (by positivity) (by positivity)
      (by rw [hsl]; push_cast; ring)]
    rw [Int.toNat_natCast, Int.toNat_natCast]
    have hr3 : 3 * r / 3 = r := by omega
    congr 1
    simp only [colorSplit, hr3]
    have hassoc : vstack3 3 e = sliceCh 3 0 e ++ (sliceCh 3 1 e ++ sliceCh 3 2 e) := by
      simp [vstack3, List.append_assoc]
    have htake0 : (vstack3 3 e).take (r * c) = sliceCh 3 0 e := by
      rw [hassoc]; exact takeApp _ hs0
    have hdrop1 : (vstack3 3 e).drop (r * c) = sliceCh 3 1 e ++ sliceCh 3 2 e := by
      rw [hassoc]; exact dropApp _ hs0
    have htake1 : ((vstack3 3 e).drop (r * c)).take (r * c) = sliceCh 3 1 e := by
      rw [hdrop1]; exact takeApp _ hs1
    have hdrop2 : (vstack3 3 e).drop (2 * (r * c)) = sliceCh 3 2 e := by
      rw [two_mul]
      exact (dropThen hdrop1 (r * c)).trans (dropApp _ hs1)
    have htake2 : ((vstack3 3 e).drop (2 * (r * c))).take (r * c) = sliceCh 3 2 e := by
      rw [hdrop2]
      exact List.take_of_length_le (by rw [length_sliceCh, hlen, hq])
    rw [htake0, htake1, htake2,
      interleave3_sliceCh (r * c) e (by rw [hlen]; ring)]

theorem C1_new_roundtrip_witness :
    WFImage ⟨[1, 2], [5, 6]⟩ ∧
      ∃ b, write_oma ⟨[1, 2], [5, 6]⟩ (fun i => i) true = .ok b ∧
        read_oma b = .ok ⟨[1, 2], [5, 6]⟩ := by
  have hwf : WFImage ⟨[1, 2], [5, 6]⟩ :=
    ⟨Or.inl ⟨1, 2, rfl, by omega, by omega, by omega, by omega, rfl⟩,
      (by decide : ∀ s ∈ ([5, 6] : List Int), 0 ≤ s ∧ s < 4294967296)⟩
  exact ⟨hwf, C1_new_roundtrip _ (fun i => i) hwf⟩

/-! ## The ruler block is the only nondeterministic output region -/

theorem omaNewBytes_ruler (row col : Nat) (isc : Int) (stacked : List Int)
    (r1 r2 : Nat → Nat) :
    (omaNewBytes row col isc stacked r1).map (fun b => (b.length, b.take 234, b.drop 250)) =
      (omaNewBytes row col isc stacked r2).map (fun b => (b.length, b.take 234, b.drop 250)) := by
  simp only [omaNewBytes]
  by_cases hov : 2147483648 ≤ row ∨ 2147483648 ≤ col
  · rw [if_pos hov, if_pos hov]
  · rw [if_neg hov, if_neg hov]
    by_cases hsm : stacked.length ≠ row * col
    · rw [if_pos hsm, if_pos hsm]
    · rw [if_neg hsm, if_neg hsm]
      have hS : (packSeq packI32 (newSpecs row col isc)).length = 128 := by
        rw [length_packSeq packI32 4 (fun v => rfl), length_newSpecs]
      have hre : ∀ rand : Nat → Nat,
          newHeader ++ (le32 32 ++ (le32 16 ++ (le32 16
            ++ (packSeq packI32 (newSpecs row col isc)
            ++ (List.replicate 64 0 ++ (packRand rand
            ++ (List.replicate 16 0 ++ packSeq packF stacked)))))))
          = (newHeader ++ le32 32 ++ le32 16 ++ le32 16
              ++ packSeq packI32 (newSpecs row col isc) ++ List.replicate 64 0)
            ++ (packRand rand ++ (List.replicate 16 0 ++ packSeq packF stacked)) := by
        intro rand
        simp [List.append_assoc]
      have hC : (newHeader ++ le32 32 ++ le32 16 ++ le32 16
          ++ packSeq packI32 (newSpecs row col isc) ++ List.replicate 64 0).length = 234 := by
        simp only [List.length_append, length_newHeader, length_le32, hS,
          List.length_replicate]
      have h250 : ∀ rand : Nat → Nat,
          ((newHeader ++ le32 32 ++ le32 16 ++ le32 16
              ++ packSeq packI32 (newSpecs row col isc) ++ List.replicate 64 0)
            ++ (packRand rand ++ (List.replicate 16 0 ++ packSeq packF stacked))).drop 250
          = List.replicate 16 0 ++ packSeq packF stacked := by
        intro rand
        exact (dropAppAdd _ hC 16).trans (dropApp _ (length_packRand rand))
      have htup :
          (((newHeader ++ le32 32 ++ le32 16 ++ le32 16
              ++ packSeq packI32 (newSpecs row col isc) ++ List.replicate 64 0)
            ++ (packRand r1 ++ (List.replicate 16 0 ++ packSeq packF stacked))).length,
           ((newHeader ++ le32 32 ++ le32 16 ++ le32 16
              ++ packSeq packI32 (newSpecs row col isc) ++ List.replicate 64 0)
            ++ (packRand r1 ++ (List.replicate 16 0 ++ packSeq packF stacked))).take 234,
           ((newHeader ++ le32 32 ++ le32 16 ++ le32 16
              ++ packSeq packI32 (newSpecs row col isc) ++ List.replicate 64 0)
            ++ (packRand r1 ++ (List.replicate 16 0 ++ packSeq packF stacked))).drop 250)
          = (((newHeader ++ le32 32 ++ le32 16 ++ le32 16
              ++ packSeq packI32 (newSpecs row col isc) ++ List.replicate 64 0)
            ++ (packRand r2 ++ (List.replicate 16 0 ++ packSeq packF stacked))).length,
           ((newHeader ++ le32 32 ++ le32 16 ++ le32 16
              ++ packSeq packI32 (newSpecs row col isc) ++ List.replicate 64 0)
            ++ (packRand r2 ++ (List.replicate 16 0 ++ packSeq packF stacked))).take 234,
           ((newHeader ++ le32 32 ++ le32 16 ++ le32 16
              ++ packSeq packI32 (newSpecs row col isc) ++ List.replicate 64 0)
            ++ (packRand r2 ++ (List.replicate 16 0 ++ packSeq packF stacked))).drop 250) := by
        simp only [Prod.mk.injEq]
        refine ⟨?_, ?_, ?_⟩
        · simp [length_packRand]
        · rw [takeApp _ hC, takeApp _ hC]
        · rw [h250 r1, h250 r2]
      rw [hre r1, hre r2]
      simp only [Except.map]
      rw [htup]

/-- C9: two invocations of the new-tagged encoder on the same image produce
byte streams that agree in length and at every byte position outside the
16-byte ruler block (bytes 234–249): the prefix before byte 234 and the
suffix from byte 250 on are equal, whatever the two random byte sources
supply. -/
theorem C9_ruler_only (a : NpArray) (r1 r2 : Nat → Nat) :
    (write_oma a r1 true).map (fun b => (b.length, b.take 234, b.drop 250)) =
      (write_oma a r2 true).map (fun b => (b.length, b.take 234, b.drop 250)) := by
  show (write_oma_new a r1).map _ = (write_oma_new a r2).map _
  simp only [write_oma_new]
  cases hs : a.shape.get? 0 with
  | none => rfl
  | some r0 =>
    show (if 2 < a.shape.length ∧ a.shape.getD 2 0 = 3 then
          omaNewBytes (3 * r0) (a.shape.getD 1 1) 1 (vstack3 3 a.elems) r1
        else omaNewBytes r0 (a.shape.getD 1 1) 0 a.elems r1).map
        (fun b => (b.length, b.take 234, b.drop 250))
      = (if 2 < a.shape.length ∧ a.shape.getD 2 0 = 3 then
          omaNewBytes (3 * r0) (a.shape.getD 1 1) 1 (vstack3 3 a.elems) r2
        else omaNewBytes r0 (a.shape.getD 1 1) 0 a.elems r2).map
        (fun b => (b.length, b.take 234, b.drop 250))
    by_cases hcol : 2 < a.shape.length ∧ a.shape.getD 2 0 = 3
    · rw [if_pos hcol, if_pos hcol]
      exact omaNewBytes_ruler _ _ _ _ r1 r2
    · rw [if_neg hcol, if_neg hcol]
      exact omaNewBytes_ruler _ _ _ _ r1 r2

/-! ## C3: nspecs below 9 fails with MissingSpecs -/

/-- C3: for every tagged OMA2 input whose header declares `nspecs < 9` and
whose surrounding header fields are intact (the `TaggedHdr` hypotheses),
the decoder fails with `MissingSpecs` — the `IndexError` of `specs[8]` —
and in particular never returns an image and never reads out of bounds
(the decoder is a total function into `Except`). -/
theorem C3_missing_specs {file : List Nat} {ns nv nr cs es : Int} {specs : List Int}
    (h : TaggedHdr file ns nv nr cs es specs) (h9 : ns < 9) :
    read_oma file = .error .MissingSpecs := by
  rw [read_oma_tagged h]
  have hlen := h.hlen
  have ns0 := h.ns0
  have hlenspec : specs.length = ns.toNat := by
    rw [← h.hspecs, parseI32s_length, List.length_take, List.length_drop]
    omega
  have h8 : specs.get? 8 = none := by
    rw [List.get?_eq_none]
    omega
  rw [h8]
  cases specs.get? 0 <;> cases specs.get? 1 <;> rfl

set_option maxRecDepth 40000 in
theorem C3_missing_specs_witness :
    TaggedHdr nspecs5File 5 0 0 0 0 [7, 1, 0, 0, 0] ∧ (5 : Int) < 9 ∧
      read_oma nspecs5File = .error .MissingSpecs := by
  have h : TaggedHdr nspecs5File 5 0 0 0 0 [7, 1, 0, 0, 0] :=
    ⟨by decide, by decide, by decide, by decide, by decide, by decide, by decide,
      by decide, by decide, by decide, by decide,
      fun hx => absurd hx (by decide), fun hx => absurd hx (by decide)⟩
  exact ⟨h, by decide, C3_missing_specs h (by decide)⟩

/-! ## C2: colour rows not divisible by 3 are silently truncated -/

/-- C2 (amended): for every tagged OMA2 input marked colour
(`specs[8] = 1`) whose header is intact and whose payload is present, the
decoder does not fail when `rows` is not divisible by 3: it silently
truncates, returning a `⌊rows/3⌋ × cols × 3` image built from the first
`3*⌊rows/3⌋` rows and dropping the remainder rows. -/
theorem C2_color_truncates {file : List Nat} {ns nv nr cs es : Int} {specs : List Int}
    (h : TaggedHdr file ns nv nr cs es specs) (row col : Int)
    (h0 : specs.get? 0 = some row) (h1 : specs.get? 1 = some col)
    (h8 : specs.get? 8 = some 1)
    (hr : 0 ≤ row) (hc : 0 ≤ col) (hnd : ¬(3 : Int) ∣ row)
    (hplen : taggedPayloadPos ns nv nr cs es + 4 * (row * col).toNat ≤ file.length) :
    read_oma file =
      .ok (colorSplit row.toNat col.toNat
        (parseU32s ((file.drop (taggedPayloadPos ns nv nr cs es)).take
          (4 * (row * col).toNat)))) := by
  have hnn : 0 ≤ row * col := mul_nonneg hr hc
  rw [read_oma_tagged h, h0, h1, h8]
  show readPayload file (taggedPayloadPos ns nv nr cs es) row col 1 = _
  rw [readPayload_ok hr hc hplen]
  exact finishImage_color hr hc (by
    rw [parseU32s_length, List.length_take, List.length_drop]
    omega)

set_option maxRecDepth 40000 in
theorem C2_counterexample :
    parseI32s ((colorRows7File.drop 42).take 36) = [7, 1, 0, 0, 0, 0, 0, 0, 1] ∧
      ¬(3 : Int) ∣ 7 ∧
      read_oma colorRows7File = .ok ⟨[2, 1, 3], [10, 30, 50, 20, 40, 60]⟩ := by
  refine ⟨by decide, by decide, ?_⟩
  rfl

set_option maxRecDepth 40000 in
theorem C2_color_truncates_witness :
    TaggedHdr colorRows7File 9 0 0 0 0 [7, 1, 0, 0, 0, 0, 0, 0, 1] ∧
      read_oma colorRows7File =
        .ok (colorSplit (7 : Int).toNat (1 : Int).toNat
          (parseU32s ((colorRows7File.drop (taggedPayloadPos 9 0 0 0 0)).take
            (4 * ((7 : Int) * 1).toNat)))) := by
  have h : TaggedHdr colorRows7File 9 0 0 0 0 [7, 1, 0, 0, 0, 0, 0, 0, 1] :=
    ⟨by decide, by decide, by decide, by decide, by decide, by decide, by decide,
      by decide, by decide, by decide, by decide,
      fun hx => absurd hx (by decide), fun hx => absurd hx (by decide)⟩
  exact ⟨h, C2_color_truncates h 7 1 (by decide) (by decide) (by decide) (by decide)
    (by decide) (by decide) (by decide)⟩

/-! ## C8: only specs[8] == 1 marks a frame as colour -/

/-- C8 (amended): for every tagged OMA2 input whose header is intact and
whose payload is present, the decoder returns a colour image only when
`specs[8]` is exactly 1; any other value — including other nonzero values —
yields a mono `rows × cols` image. -/
theorem C8_color_is_exactly_one {file : List Nat} {ns nv nr cs es : Int}
    {specs : List Int} (h : TaggedHdr file ns nv nr cs es specs) (row col isc : Int)
    (h0 : specs.get? 0 = some row) (h1 : specs.get? 1 = some col)
    (h8 : specs.get? 8 = some isc) (hisc : isc ≠ 1)
    (hr : 0 ≤ row) (hc : 0 ≤ col)
    (hplen : taggedPayloadPos ns nv nr cs es + 4 * (row * col).toNat ≤ file.length) :
    read_oma file =
      .ok ⟨[row.toNat, col.toNat],
        parseU32s ((file.drop (taggedPayloadPos ns nv nr cs es)).take
          (4 * (row * col).toNat))⟩ := by
  have hnn : 0 ≤ row * col := mul_nonneg hr hc
  rw [read_oma_tagged h, h0, h1, h8]
  show readPayload file (taggedPayloadPos ns nv nr cs es) row col isc = _
  rw [readPayload_ok hr hc hplen]
  exact finishImage_mono hr hc (by
    rw [parseU32s_length, List.length_take, List.length_drop]
    omega) hisc

set_option maxRecDepth 40000 in
theorem C8_counterexample :
    parseI32s ((colorFlag2File.drop 42).take 36) = [6, 1, 0, 0, 0, 0, 0, 0, 2] ∧
      (2 : Int) ≠ 0 ∧
      read_oma colorFlag2File = .ok ⟨[6, 1], [10, 20, 30, 40, 50, 60]⟩ := by
  refine ⟨by decide, by decide, ?_⟩
  rfl

set_option maxRecDepth 40000 in
theorem C8_color_is_exactly_one_witness :
    TaggedHdr colorFlag2File 9 0 0 0 0 [6, 1, 0, 0, 0, 0, 0, 0, 2] ∧
      read_oma colorFlag2File =
        .ok ⟨[(6 : Int).toNat, (1 : Int).toNat],
          parseU32s ((colorFlag2File.drop (taggedPayloadPos 9 0 0 0 0)).take
            (4 * ((6 : Int) * 1).toNat))⟩ := by
  have h : TaggedHdr colorFlag2File 9 0 0 0 0 [6, 1, 0, 0, 0, 0, 0, 0, 2] :=
    ⟨by decide, by decide, by decide, by decide, by decide, by decide, by decide,
      by decide, by decide, by decide, by decide,
      fun hx => absurd hx (by decide), fun hx => absurd hx (by decide)⟩
  exact ⟨h, C8_color_is_exactly_one h 6 1 2 (by decide) (by decide) (by decide)
    (by decide) (by decide) (by decide) (by decide)⟩

/-! ## C6: the 6×4 colour split -/

/-- C6: for every tagged OMA2 input with an intact header, `specs[0] = 6`,
`specs[1] = 4`, `specs[8] = 1` and a full 96-byte payload, the decoder
returns a 2×4×3 image whose channel 0 (red) is rows 0–1 of the flat 6×4
plane, channel 1 (green) rows 2–3 and channel 2 (blue) rows 4–5. -/
theorem C6_color_split_6x4 {file : List Nat} {ns nv nr cs es : Int} {specs : List Int}
    (h : TaggedHdr file ns nv nr cs es specs)
    (h0 : specs.get? 0 = some 6) (h1 : specs.get? 1 = some 4)
    (h8 : specs.get? 8 = some 1)
    (hplen : taggedPayloadPos ns nv nr cs es + 96 ≤ file.length) :
    ∃ img, read_oma file = .ok img ∧ img.shape = [2, 4, 3] ∧
      sliceCh 3 0 img.elems
        = (parseU32s ((file.drop (taggedPayloadPos ns nv nr cs es)).take 96)).take 8 ∧
      sliceCh 3 1 img.elems
        = ((parseU32s ((file.drop (taggedPayloadPos ns nv nr cs es)).take 96)).drop 8).take 8 ∧
      sliceCh 3 2 img.elems
        = ((parseU32s ((file.drop (taggedPayloadPos ns nv nr cs es)).take 96)).drop 16).take 8 := by
  have hplen' : taggedPayloadPos ns nv nr cs es + 4 * ((6 : Int) * 4).toNat ≤ file.length := by
    simpa using hplen
  have hdec : read_oma file = .ok (colorSplit 6 4
      (parseU32s ((file.drop (taggedPayloadPos ns nv nr cs es)).take 96))) := by
    rw [read_oma_tagged h, h0, h1, h8]
    show readPayload file (taggedPayloadPos ns nv nr cs es) 6 4 1 = _
    rw [readPayload_ok (by norm_num) (by norm_num) hplen']
    exact finishImage_color (by norm_num) (by norm_num) (by
      show (↑(parseU32s ((file.drop (taggedPayloadPos ns nv nr cs es)).take 96)).length
        : Int) = 6 * 4
      rw [parseU32s_length, List.length_take, List.length_drop]
      omega)
  have hslen : (parseU32s ((file.drop (taggedPayloadPos ns nv nr cs es)).take 96)).length
      = 24 := by
    rw [parseU32s_length, List.length_take, List.length_drop]
    omega
  refine ⟨_, hdec, rfl, ?_⟩
  obtain ⟨e0, e1, e2⟩ := sliceCh_interleave3
    ((parseU32s ((file.drop (taggedPayloadPos ns nv nr cs es)).take 96)).take 8)
    (((parseU32s ((file.drop (taggedPayloadPos ns nv nr cs es)).take 96)).drop 8).take 8)
    (((parseU32s ((file.drop (taggedPayloadPos ns nv nr cs es)).take 96)).drop 16).take 8)
    (by simp [List.length_take, List.length_drop, hslen])
    (by simp [List.length_take, List.length_drop, hslen])
  exact ⟨e0, e1, e2⟩

set_option maxRecDepth 40000 in
theorem C6_color_split_6x4_witness :
    TaggedHdr colorRows6File 9 0 0 0 0 [6, 4, 0, 0, 0, 0, 0, 0, 1] ∧
      (∃ img, read_oma colorRows6File = .ok img ∧ img.shape = [2, 4, 3] ∧
        sliceCh 3 0 img.elems
          = (parseU32s ((colorRows6File.drop (taggedPayloadPos 9 0 0 0 0)).take 96)).take 8 ∧
        sliceCh 3 1 img.elems
          = ((parseU32s ((colorRows6File.drop (taggedPayloadPos 9 0 0 0 0)).take 96)).drop 8).take 8 ∧
        sliceCh 3 2 img.elems
          = ((parseU32s ((colorRows6File.drop (taggedPayloadPos 9 0 0 0 0)).take 96)).drop 16).take 8) := by
  have h : TaggedHdr colorRows6File 9 0 0 0 0 [6, 4, 0, 0, 0, 0, 0, 0, 1] :=
    ⟨by decide, by decide, by decide, by decide, by decide, by decide, by decide,
      by decide, by decide, by decide, by decide,
      fun hx => absurd hx (by decide), fun hx => absurd hx (by decide)⟩
  exact ⟨h, C6_color_split_6x4 h (by decide) (by decide) (by decide) (by decide)⟩

/-! ## C5: legacy decode geometry -/

/-- C5: for every untagged (legacy) OMA2 input, the decoder reads
`(cols, rows)` as two little-endian 16-bit integers at byte offset 14 —
`cols` first — repositions to byte offset `256*2 + 80*4 = 832`, and returns
a `rows × cols` mono image whose samples are the `rows*cols` little-endian
32-bit floats at that offset. -/
theorem C5_legacy_geometry {file : List Nat} (row col : Int)
    (htag : containsSeq omaTag (file.take 30) = false)
    (hcol : readI16 ((file.drop 14).take 2) = col)
    (hrow : readI16 ((file.drop 16).take 2) = row)
    (hr : 0 ≤ row) (hc : 0 ≤ col)
    (hlen : 832 + 4 * (row * col).toNat ≤ file.length) :
    read_oma file = .ok ⟨[row.toNat, col.toNat],
      parseU32s ((file.drop 832).take (4 * (row * col).toNat))⟩ := by
  have hnn : 0 ≤ row * col := mul_nonneg hr hc
  simp only [read_oma, htag]
  rw [if_neg (show ¬(false = true) by decide)]
  rw [if_neg (show ¬file.length < 18 by omega)]
  rw [hcol, hrow, readPayload_ok hr hc hlen]
  exact finishImage_mono hr hc (by
    rw [parseU32s_length, List.length_take, List.length_drop]
    omega) (by norm_num)

set_option maxRecDepth 40000 in
theorem C5_legacy_geometry_witness :
    containsSeq omaTag (legacy2x4File.take 30) = false ∧
      readI16 ((legacy2x4File.drop 14).take 2) = 4 ∧
      readI16 ((legacy2x4File.drop 16).take 2) = 2 ∧
      read_oma legacy2x4File = .ok ⟨[(2 : Int).toNat, (4 : Int).toNat],
        parseU32s ((legacy2x4File.drop 832).take (4 * ((2 : Int) * 4).toNat))⟩ :=
  ⟨by decide, by decide, by decide,
    C5_legacy_geometry 2 4 (by decide) (by decide) (by decide) (by decide)
      (by decide) (by decide)⟩

/-! ## C4: HOBJ shape mismatch -/

/-- C4 (amended): when the decoded `rows` and `cols` are nonnegative, the
seek position is valid and the payload is fully present, a HOBJ input with
`npixels ≠ rows*cols` fails with `ShapeMismatch` (numpy's reshape
`ValueError`); but when `rows` decodes to `-1`, numpy's `-1` dimension
inference can silently succeed despite the mismatch (see the
counterexample), and a short payload fails with `TruncatedPayload` before
the shape check. -/
theorem C4_shape_mismatch {file : List Nat} (np rows cols : Int)
    (h84 : 84 ≤ file.length)
    (hnp : readI32 (((file.drop 72).take 4).reverse) = np)
    (hrw : readI16 (((file.drop 80).take 2).reverse) + 1 = rows)
    (hcl : readI16 (((file.drop 82).take 2).reverse) + 1 = cols)
    (hr : 0 ≤ rows) (hc : 0 ≤ cols) (hn : 0 ≤ np)
    (hplen : (84 + rows * 6 + 17).toNat + 2 * np.toNat ≤ file.length)
    (hne : np ≠ rows * cols) :
    read_hobj file = .error .ShapeMismatch := by
  simp only [read_hobj, hnp, hrw, hcl]
  rw [if_neg (show ¬file.length < 84 by omega)]
  rw [if_neg (show ¬(84 + rows * 6 + 17 : Int) < 0 by omega)]
  rw [if_neg (show ¬np < 0 by omega)]
  rw [if_neg (show ¬file.length < (84 + rows * 6 + 17).toNat + 2 * np.toNat by omega)]
  have hsl : (parseI16s ((file.drop (84 + rows * 6 + 17).toNat).take (2 * np.toNat))).length
      = np.toNat := by
    rw [parseI16s_length, List.length_take, List.length_drop]
    omega
  rw [hsl]
  have hre : reshape2 rows cols np.toNat = none := by
    simp only [reshape2]
    rw [if_pos ⟨hr, hc⟩]
    rw [if_neg (show ¬rows * cols = ((np.toNat : Nat) : Int) by
      rw [Int.toNat_of_nonneg hn]
      exact fun hx => hne hx.symm)]
  rw [hre]

theorem C4_counterexample :
    readI32 (((hobjRowsNeg1File.drop 72).take 4).reverse) = 1 ∧
      readI16 (((hobjRowsNeg1File.drop 80).take 2).reverse) + 1 = -1 ∧
      readI16 (((hobjRowsNeg1File.drop 82).take 2).reverse) + 1 = 1 ∧
      (1 : Int) ≠ (-1) * 1 ∧
      read_hobj hobjRowsNeg1File = .ok ⟨[1, 1], [42]⟩ := by
  refine ⟨by decide, by decide, by decide, by decide, ?_⟩
  rfl

theorem C4_shape_mismatch_witness :
    readI32 (((hobjMismatchFile.drop 72).take 4).reverse) = 2 ∧
      readI16 (((hobjMismatchFile.drop 80).take 2).reverse) + 1 = 1 ∧
      readI16 (((hobjMismatchFile.drop 82).take 2).reverse) + 1 = 1 ∧
      (2 : Int) ≠ 1 * 1 ∧
      read_hobj hobjMismatchFile = .error .ShapeMismatch :=
  ⟨by decide, by decide, by decide, by decide,
    C4_shape_mismatch 2 1 1 (by decide) (by decide) (by decide) (by decide)
      (by decide) (by decide) (by decide) (by decide) (by decide)⟩

/-! ## C7: legacy encoding of a colour image -/

theorem packSeq_le16_getD (l : List Nat) : ∀ (i : Nat), i < l.length →
    (packSeq le16 l).getD (2 * i) 0 = l.getD i 0 % 256 ∧
      (packSeq le16 l).getD (2 * i + 1) 0 = l.getD i 0 / 256 % 256 := by
  induction l with
  | nil => intro i hi; simp at hi
  | cons x t ih =>
    intro i hi
    cases i with
    | zero => exact ⟨rfl, rfl⟩
    | succ j =>
      have hj : j < t.length := by simpa using hi
      have h2 : 2 * (j + 1) = 2 * j + 1 + 1 := by ring
      have h3 : 2 * (j + 1) + 1 = 2 * j + 1 + 1 + 1 := by ring
      constructor
      · rw [h2]
        show (le16 x ++ packSeq le16 t).getD (2 * j + 1 + 1) 0 = (x :: t).getD (j + 1) 0 % 256
        simp only [le16, List.cons_append, List.nil_append, List.getD_cons_succ]
        exact (ih j hj).1
      · rw [h3]
        show (le16 x ++ packSeq le16 t).getD (2 * j + 1 + 1 + 1) 0
          = (x :: t).getD (j + 1) 0 / 256 % 256
        simp only [le16, List.cons_append, List.nil_append, List.getD_cons_succ]
        exact (ih j hj).2

theorem legacyHeader_word (row col : Nat) (i : Nat) (hi : i < 256) :
    (legacyHeader row col).getD (2 * i) 0
        + 256 * (legacyHeader row col).getD (2 * i + 1) 0
      = (if i = 226 then 32639 else if i = 7 then col % 65536
         else if i = 8 then row % 65536 else 0) := by
  have hlen : ((List.range 256).map (fun i =>
      if i = 226 then 32639
      else if i = 7 then col % 65536
      else if i = 8 then row % 65536
      else 0)).length = 256 := by simp
  obtain ⟨hlo, hhi⟩ := packSeq_le16_getD ((List.range 256).map (fun i =>
      if i = 226 then 32639
      else if i = 7 then col % 65536
      else if i = 8 then row % 65536
      else 0)) i (by omega)
  have hmap : ((List.range 256).map (fun i =>
      if i = 226 then 32639
      else if i = 7 then col % 65536
      else if i = 8 then row % 65536
      else 0)).getD i 0
      = (if i = 226 then 32639 else if i = 7 then col % 65536
         else if i = 8 then row % 65536 else 0) := by
    rw [List.getD_eq_getElem _ _ (by omega)]
    simp [List.getElem_map, List.getElem_range]
  rw [legacyHeader, hlo, hhi, hmap]
  have hw : (if i = 226 then 32639 else if i = 7 then col % 65536
      else if i = 8 then row % 65536 else 0) < 65536 := by
    split
    · omega
    · split
      · omega
      · split <;> omega
  omega

/-- C7 (amended): encoding a 3-channel colour image with the legacy variant
emits the 256-word header and the 80-float offset table before stacking the
planes, so header word 7 is `cols` and header word 8 is the PRE-stacking
row count `rows` (both mod 2^16) — not `3*rows` — with word 226 = 32639 and
every other word zero; the payload then holds the `3*rows*cols` samples of
the red, green and blue planes stacked vertically, as little-endian 32-bit
floats. -/
theorem C7_legacy_color_layout (r c : Nat) (e : List Int) (rand : Nat → Nat)
    (hlen : e.length = r * c * 3) :
    write_oma ⟨[r, c, 3], e⟩ rand false
        = .ok (legacyHeader r c ++ (List.replicate 320 0 ++ packSeq packF (vstack3 3 e)))
      ∧ (packSeq packF (vstack3 3 e)).length = 4 * (3 * r * c)
      ∧ (∀ i : Nat, i < 256 →
          (legacyHeader r c).getD (2 * i) 0 + 256 * (legacyHeader r c).getD (2 * i + 1) 0
            = (if i = 226 then 32639 else if i = 7 then c % 65536
               else if i = 8 then r % 65536 else 0)) := by
  have hq : r * c * 3 / 3 = r * c := Nat.mul_div_cancel _ (by norm_num)
  have hsl : (vstack3 3 e).length = 3 * r * c := by
    simp only [vstack3, List.length_append, length_sliceCh, hlen, hq]
    ring
  refine ⟨?_, ?_, fun i hi => legacyHeader_word r c i hi⟩
  · show (if (vstack3 3 e).length ≠ 3 * r * c
        then (Except.error EncodeErr.ShapeMismatch : Except EncodeErr (List Nat))
        else .ok (legacyHeader r c ++ (List.replicate 320 0 ++ packSeq packF (vstack3 3 e))))
      = .ok (legacyHeader r c ++ (List.replicate 320 0 ++ packSeq packF (vstack3 3 e)))
    rw [if_neg (by omega)]
  · rw [length_packSeq packF 4 (fun v => rfl), hsl]

set_option maxRecDepth 100000 in
theorem C7_counterexample :
    write_oma color1x1Img (fun _ => 0) false = .ok color1x1LegacyOut ∧
      color1x1LegacyOut.getD 16 0 + 256 * color1x1LegacyOut.getD 17 0 = 1 ∧
      (1 : Nat) ≠ 3 * 1 := by
  refine ⟨rfl, by decide, by decide⟩

theorem C7_legacy_color_layout_witness :
    ([10, 20, 30] : List Int).length = 1 * 1 * 3 ∧
      (write_oma ⟨[1, 1, 3], [10, 20, 30]⟩ (fun _ => 1) false
          = .ok (legacyHeader 1 1
            ++ (List.replicate 320 0 ++ packSeq packF (vstack3 3 [10, 20, 30])))
        ∧ (packSeq packF (vstack3 3 [10, 20, 30])).length = 4 * (3 * 1 * 1)
        ∧ (∀ i : Nat, i < 256 →
            (legacyHeader 1 1).getD (2 * i) 0 + 256 * (legacyHeader 1 1).getD (2 * i + 1) 0
              = (if i = 226 then 32639 else if i = 7 then 1 % 65536
                 else if i = 8 then 1 % 65536 else 0))) :=
  ⟨by decide, C7_legacy_color_layout 1 1 [10, 20, 30] (fun _ => 1) (by decide)⟩

/-! ## C10: one-dimensional input is an N×1 mono image -/

/-- C10: the OMA2 encoder accepts a one-dimensional array of length `n`:
both the new-tagged and legacy variants treat it as an `n × 1` mono image,
recording `rows = n`, `cols = 1` in the header (`specs[0]/specs[1]` for the
tagged layout, header words 8/7 for the legacy layout) and emitting the `n`
samples as the payload. -/
theorem C10_one_dim (n : Nat) (e : List Int) (rand : Nat → Nat)
    (hlen : e.length = n) (hn : n < 2147483648) :
    write_oma ⟨[n], e⟩ rand true
        = .ok (newHeader ++ (le32 32 ++ (le32 16 ++ (le32 16
          ++ (packSeq packI32 (newSpecs n 1 0)
          ++ (List.replicate 64 0 ++ (packRand rand
          ++ (List.replicate 16 0 ++ packSeq packF e))))))))
      ∧ write_oma ⟨[n], e⟩ rand false
        = .ok (legacyHeader n 1 ++ (List.replicate 320 0 ++ packSeq packF e))
      ∧ (packSeq packF e).length = 4 * n := by
  refine ⟨?_, ?_, ?_⟩
  · show omaNewBytes n 1 0 e rand = _
    simp only [omaNewBytes]
    rw [if_neg (show ¬(2147483648 ≤ n ∨ 2147483648 ≤ 1) by omega),
      if_neg (show ¬e.length ≠ n * 1 by omega)]
  · show (if e.length ≠ n * 1
        then (Except.error EncodeErr.ShapeMismatch : Except EncodeErr (List Nat))
        else .ok (legacyHeader n 1 ++ (List.replicate 320 0 ++ packSeq packF e)))
      = .ok (legacyHeader n 1 ++ (List.replicate 320 0 ++ packSeq packF e))
    rw [if_neg (show ¬e.length ≠ n * 1 by omega)]
  · rw [length_packSeq packF 4 (fun v => rfl), hlen]

theorem C10_one_dim_witness :
    ([7, 8, 9] : List Int).length = 3 ∧ (3 : Nat) < 2147483648 ∧
      (write_oma ⟨[3], [7, 8, 9]⟩ (fun i => i) true
          = .ok (newHeader ++ (le32 32 ++ (le32 16 ++ (le32 16
            ++ (packSeq packI32 (newSpecs 3 1 0)
            ++ (List.replicate 64 0 ++ (packRand (fun i => i)
            ++ (List.replicate 16 0 ++ packSeq packF [7, 8, 9]))))))))
        ∧ write_oma ⟨[3], [7, 8, 9]⟩ (fun i => i) false
          = .ok (legacyHeader 3 1 ++ (List.replicate 320 0 ++ packSeq packF [7, 8, 9]))
        ∧ (packSeq packF ([7, 8, 9] : List Int)).length = 4 * 3) :=
  ⟨by decide, by decide, C10_one_dim 3 [7, 8, 9] (fun i => i) (by decide) (by decide)⟩
